import Mathlib

/-!
# Verification of the azurerm-linter Schema Convention Analysis Engine

This file gives a shallow embedding, in Lean 4, of the parts of the
`qixialu/azurerm-linter` repository that the specification's claims are
about:

* the three process-wide shared-library schema caches
  (`passes/schemainfo/schemainfo.go` `run`,
  `passes/helpers/commonschemainfo/schemainfo.go` `run`,
  `passes/schema/common_schema_info.go` `runCommon`);
* the AZC006 ID-provenance tracer (`variableResolver` and friends);
* the AZC006 schema-field extraction and expected-order computation
  (`extractSchemaFields`, `getExpectedOrder`, `areOrdersEqual`, `run`);
* the AZNR001 canonical order builder and validator
  (`getAZNR001ExpectedOrder`, `validateAZNR001Order`,
  `checkAZNR001OrderingIssues`).

Go `map` values used by the analyzers are modelled as association lists
(`List (String × α)`) where an update prepends a pair and a lookup takes
the first match, which matches overwrite semantics.  Go's `sort.Strings`
is modelled by `List.insertionSort (· ≤ ·)` (any correct sort computes the
same list of strings).  Each definition carries a comment naming the Go
function it embeds.
-/

/-- First-match lookup in an association list.  Models reading a Go map
where updates are modelled by prepending. -/
def lookupAssoc {α : Type} : List (String × α) → String → Option α
  | [], _ => none
  | (k, v) :: rest, key => if k = key then some v else lookupAssoc rest key

/-- Models Go `sort.Strings` (any correct sort of strings computes the same
result, since equal strings are identical). -/
def sortStrings (l : List String) : List String :=
  List.insertionSort (· ≤ ·) l

/-- Whether the character list `p` is an initial segment of `l`. -/
def leadsWith : List Char → List Char → Bool
  | [], _ => true
  | _ :: _, [] => false
  | p :: ps, c :: cs => p == c && leadsWith ps cs

/-- Whether the character list `p` occurs contiguously inside `l`. -/
def hasSeg (p : List Char) : List Char → Bool
  | [] => leadsWith p []
  | c :: cs => leadsWith p (c :: cs) || hasSeg p cs

/-- Models Go `strings.Contains`. -/
def goContains (s pat : String) : Bool :=
  hasSeg pat.toList s.toList

/-- Models Go `strings.HasPrefix`. -/
def goStartsWith (s pat : String) : Bool :=
  leadsWith pat.toList s.toList

/-- Models Go `strings.HasSuffix`. -/
def goEndsWith (s pat : String) : Bool :=
  leadsWith pat.toList.reverse s.toList.reverse

/-- Models Go `strings.ToLower` restricted to what the analyzer needs:
per-character lowercasing. -/
def lowerStr (s : String) : String :=
  String.mk (s.toList.map Char.toLower)

/-- Auxiliary loop of `toSnakeCase` (AZC006): the Boolean flag is true on
the first character (`i == 0` in the Go loop). -/
def snakeAux : Bool → List Char → List Char
  | _, [] => []
  | first, c :: cs =>
      (if !first && ('A' ≤ c && c ≤ 'Z') then ['_', c] else [c]) ++ snakeAux false cs

/-- Embeds AZC006 `toSnakeCase`: insert `_` before every interior upper-case
letter, then lower-case everything. -/
def toSnakeCase (s : String) : String :=
  String.mk ((snakeAux true s.toList).map Char.toLower)

/-! ## The shared-library schema caches

Cache entries are modelled as pairs of a qualified function name and the
extracted `Required`/`Optional`/`Computed` flags; the `Functions` map of a
cache result is an association list of such entries.  Each Go `run`
function is modelled as a state-transition function: it receives the
current global state and the result its own `loadSchemaInfo` /
`packages.Load` attempt would produce (callers in different directory
contexts produce different load results), and returns the new global state
together with the value handed to the caller. -/

/-- Embeds `schemainfo.SchemaProperties` (and the flag triple of
`schema.SchemaInfo` as used by the analyzers). -/
structure SchemaProperties where
  required : Bool
  optional : Bool
  computed : Bool
deriving DecidableEq

/-- A cache payload: the `Functions` map of a schema-info result. -/
abbrev SchemaFunctions := List (String × SchemaProperties)

/-- Embeds `run` of `passes/schemainfo/schemainfo.go`: state is
`cachedSchemaInfo`/`cacheInitialized` (bundled: `some info` iff
initialized).  If initialized, return the cached result; otherwise load,
cache the result unconditionally, mark initialized, and return it. -/
def schemainfoRun (st : Option SchemaFunctions) (load : SchemaFunctions) :
    Option SchemaFunctions × SchemaFunctions :=
  match st with
  | some info => (some info, info)
  | none => (some load, load)

/-- Embeds `run` of `passes/helpers/commonschemainfo/schemainfo.go`: state
is `(loadOnce done, globalSchemaInfo)`.  Fast path returns the global when
it is non-nil with more than zero entries; otherwise `loadOnce.Do` runs the
load only if it has never run, stores it only when it has more than zero
entries, and the final read returns the global or a fresh empty result. -/
def commonschemainfoRun (st : Bool × Option SchemaFunctions) (load : SchemaFunctions) :
    (Bool × Option SchemaFunctions) × SchemaFunctions :=
  let fastHit : Bool := match st.2 with
    | some info => decide (info.length > 0)
    | none => false
  if fastHit then (st, st.2.getD [])
  else
    let g2 := if st.1 then st.2 else if load.length > 0 then some load else st.2
    ((true, g2), g2.getD [])

/-- Embeds `runCommon` of `passes/schema/common_schema_info.go`: state is
`globalSchemaInfo`.  A cached value is returned as is; otherwise the load
runs, is stored only when it produced more than zero entries, and is
returned either way. -/
def runCommonCache (st : Option SchemaFunctions) (load : SchemaFunctions) :
    Option SchemaFunctions × SchemaFunctions :=
  match st with
  | some info => (some info, info)
  | none => if load.length > 0 then (some load, load) else (none, load)

/-- Runs a sequence of callers through `runCommonCache`, each with the load
result its own directory context would produce; collects the returned
values. -/
def runCommonSeq (st : Option SchemaFunctions) : List SchemaFunctions → List SchemaFunctions
  | [] => []
  | l :: ls =>
      let r := runCommonCache st l
      r.2 :: runCommonSeq r.1 ls

/-- A sample cache entry. -/
def sampleEntry : String × SchemaProperties :=
  ("github.com/hashicorp/go-azure-helpers/resourcemanager/commonschema.ResourceGroupName",
   ⟨true, false, false⟩)

/-- C1 (counterexample).  The claim asserts that a population attempt that
finds zero entries is never cached, so the next caller re-attempts the load
from its own context.  For the cache of `passes/schemainfo/schemainfo.go`
this is false: after a first caller whose load finds zero entries, a second
caller whose own load would find one entry still receives the cached empty
result.  For `passes/helpers/commonschemainfo/schemainfo.go` the empty
result is not stored, but `loadOnce` prevents any re-attempt, so the second
caller also receives an empty result instead of its own load. -/
theorem cache_empty_retry_counterexample :
    (schemainfoRun (schemainfoRun none []).1 [sampleEntry]).2 = [] ∧
    (commonschemainfoRun (commonschemainfoRun (false, none) []).1 [sampleEntry]).2 = [] ∧
    [sampleEntry] ≠ ([] : SchemaFunctions) := by
  exact ⟨rfl, rfl, List.cons_ne_nil _ _⟩

/-- C1 (amended).  For the cache of `passes/schema/common_schema_info.go`
(`runCommon`) the claimed behaviour does hold: a load that returns at least
one entry is cached and returned verbatim to every later caller regardless
of their own load results, while a load that returns zero entries leaves
the state unpopulated and the next caller's result is computed from its own
load. -/
theorem runCommon_cache_retry_semantics (L : SchemaFunctions) (hL : L ≠ [])
    (later : List SchemaFunctions) (L2 : SchemaFunctions) :
    (runCommonCache none L).2 = L ∧
    runCommonSeq (runCommonCache none L).1 later = later.map (fun _ => L) ∧
    (runCommonCache none []).1 = none ∧
    (runCommonCache none L2).2 = L2 := by
  have hlen : 0 < L.length := List.length_pos.mpr hL
  have hfst : (runCommonCache none L).1 = some L := by
    simp [runCommonCache, hlen]
  refine ⟨by simp [runCommonCache, hlen], ?_, rfl, ?_⟩
  · rw [hfst]
    induction later with
    | nil => rfl
    | cons l ls ih => simp [runCommonSeq, runCommonCache, ih]
  · cases h2 : L2.length with
    | zero =>
        have : L2 = [] := List.length_eq_zero.mp h2
        simp [runCommonCache, this]
    | succ n => simp [runCommonCache, h2]

/-- Witness for `runCommon_cache_retry_semantics` at a concrete non-empty
load. -/
theorem runCommon_cache_retry_semantics_witness :
    (runCommonCache none [sampleEntry]).2 = [sampleEntry] ∧
    runCommonSeq (runCommonCache none [sampleEntry]).1 [[], [sampleEntry]] =
      [[sampleEntry], [sampleEntry]] ∧
    (runCommonCache none []).1 = none ∧
    (runCommonCache none []).2 = [] := by
  have h := runCommon_cache_retry_semantics [sampleEntry] (by decide) [[], [sampleEntry]] []
  exact ⟨h.1, h.2.1, h.2.2.1, h.2.2.2⟩

/-! ## The AZC006 ID provenance tracer

The tracer walks a Go function body looking at assignment statements and
`SetID`/`SetId` calls.  Expressions are modelled by a small AST mirroring
the `go/ast` shapes the tracer inspects; a function body is a list of
statements (assignments or expression statements) in source order, which
is the order `ast.Inspect` visits them. -/

/-- The `go/ast` expression shapes inspected by the AZC006 tracer. -/
inductive GoExpr where
  | ident (name : String)
  | strLit (value : String)
  | sel (x : GoExpr) (selName : String)
  | call (fn : GoExpr) (args : List GoExpr)
  | typeAssert (x : GoExpr)

/-- A statement of a traced function body: a single assignment
`lhs := rhs` (Go multi-assignments pair off element-wise) or a bare
expression statement. -/
inductive GoStmt where
  | assign (lhs : String) (rhs : GoExpr)
  | expr (e : GoExpr)

/-- Embeds AZC006 `extractFieldNameFromDGet`: unwrap a type assertion,
then recognize `d.Get("field_name")` with a string-literal argument. -/
def extractFieldNameFromDGet (e : GoExpr) : String :=
  let e2 := match e with
    | .typeAssert x => x
    | _ => e
  match e2 with
  | .call (.sel (.ident recv) "Get") (a0 :: _) =>
      if recv = "d" then
        match a0 with
        | .strLit s => s
        | _ => ""
      else ""
  | _ => ""

/-- Embeds AZC006 `extractFieldNameFromModelAccess`: on a selector
expression, look the member name up in the model-field mapping; on a miss,
fall back to the PascalCase→snake_case conversion of the member name. -/
def extractFieldNameFromModelAccess (e : GoExpr) (mapping : List (String × String)) : String :=
  match e with
  | .sel _ member =>
      match lookupAssoc mapping member with
      | some schemaFieldName => schemaFieldName
      | none => toSnakeCase member
  | _ => ""

/-- Embeds AZC006 `extractFieldNameFromArg`: try `d.Get` first, then the
model-member access. -/
def extractFieldNameFromArg (e : GoExpr) (mapping : List (String × String)) : String :=
  let fromDGet := extractFieldNameFromDGet e
  if fromDGet ≠ "" then fromDGet else extractFieldNameFromModelAccess e mapping

/-- Embeds AZC006 `variableResolver`: `varToField` and `idVarAssignments`
are per-function maps (association lists; newest binding first). -/
structure VariableResolver where
  varToField : List (String × String)
  idVarAssignments : List (String × List String)
  modelFieldMapping : List (String × String)

/-- Embeds AZC006 `(*variableResolver).resolveFieldName`: direct
extraction, else a `varToField` lookup for identifiers, else unresolved
(the empty string). -/
def resolveFieldName (mapping : List (String × String)) (vtf : List (String × String))
    (e : GoExpr) : String :=
  let direct := extractFieldNameFromArg e mapping
  if direct ≠ "" then direct
  else
    match e with
    | .ident n =>
        match lookupAssoc vtf n with
        | some fieldName => fieldName
        | none => ""
    | _ => ""

/-- The first-argument subscription test inside AZC006
`resolveFieldsFromArgs`: a selector or identifier whose (lower-cased) name
contains `subscription`. -/
def isSubscriptionArg (e : GoExpr) : Bool :=
  match e with
  | .sel _ m => goContains (lowerStr m) "subscription"
  | .ident n => goContains (lowerStr n) "subscription"
  | _ => false

/-- Loop of AZC006 `resolveFieldsFromArgs`; `i` is the argument index and
`acc` doubles as the `seen` set (an entry is appended exactly when it is
marked seen). -/
def resolveFieldsFromArgsAux (mapping vtf : List (String × String)) :
    Nat → List String → List GoExpr → List String
  | _, acc, [] => acc
  | i, acc, a :: rest =>
      let fieldName := resolveFieldName mapping vtf a
      if i = 0 ∧ fieldName = "" ∧ isSubscriptionArg a = true then
        resolveFieldsFromArgsAux mapping vtf (i + 1) acc rest
      else if fieldName ∈ acc then
        resolveFieldsFromArgsAux mapping vtf (i + 1) acc rest
      else
        resolveFieldsFromArgsAux mapping vtf (i + 1) (acc ++ [fieldName]) rest

/-- Embeds AZC006 `(*variableResolver).resolveFieldsFromArgs` (the variant
with the first-argument subscription special case). -/
def resolveFieldsFromArgs (mapping vtf : List (String × String)) (args : List GoExpr) :
    List String :=
  resolveFieldsFromArgsAux mapping vtf 0 [] args

/-- One assignment step of AZC006 `newVariableResolver`: record a
`varToField` binding when the right-hand side reads a named field, else an
`idVarAssignments` binding when it is a `New*ID`/`Parse*ID` call. -/
def vrStep (r : VariableResolver) (st : GoStmt) : VariableResolver :=
  match st with
  | .expr _ => r
  | .assign lhs rhs =>
      let fieldName := extractFieldNameFromArg rhs r.modelFieldMapping
      if fieldName ≠ "" then
        { r with varToField := (lhs, fieldName) :: r.varToField }
      else
        match rhs with
        | .call (.sel _ funcName) args =>
            if (goStartsWith funcName "New" && goEndsWith funcName "ID")
                || (goStartsWith funcName "Parse" && goEndsWith funcName "ID") then
              { r with idVarAssignments :=
                  (lhs, resolveFieldsFromArgs r.modelFieldMapping r.varToField args)
                    :: r.idVarAssignments }
            else r
        | _ => r

/-- Embeds AZC006 `newVariableResolver`: one pass over the function body's
assignments in source order. -/
def newVariableResolver (mapping : List (String × String)) (body : List GoStmt) :
    VariableResolver :=
  body.foldl vrStep ⟨[], [], mapping⟩

/-- Embeds AZC006 `(*variableResolver).extractFieldsFromIDArg`: a variable
holding an ID, or a zero-argument `.ID()` stringify call on such a
variable; Go's `nil` result is modelled as `[]`. -/
def extractFieldsFromIDArg (r : VariableResolver) (e : GoExpr) : List String :=
  match e with
  | .ident n =>
      match lookupAssoc r.idVarAssignments n with
      | some assignedFields => assignedFields
      | none =>
          match lookupAssoc r.varToField n with
          | some fieldName => [fieldName]
          | none => []
  | .call (.sel x selName) _ =>
      if selName = "ID" then
        match x with
        | .ident n =>
            match lookupAssoc r.idVarAssignments n with
            | some assignedFields => assignedFields
            | none =>
                match lookupAssoc r.varToField n with
                | some fieldName => [fieldName]
                | none => []
        | _ => []
      else []
  | _ => []

/-- Embeds AZC006 `isSetIDCall`. -/
def isSetIDCall (e : GoExpr) : Bool :=
  match e with
  | .call (.sel (.ident recv) selName) _ =>
      decide ((selName = "SetID" ∨ selName = "SetId") ∧
        (recv = "metadata" ∨ recv = "meta" ∨ recv = "d"))
  | _ => false

/-- The per-`SetID`-call accumulation loop of AZC006
`extractIDFieldsFromFile`: fields already appended stay; on the first
unresolved (empty) field the rest of this call's fields are dropped. -/
def appendIDFields (acc : List String) : List String → List String
  | [] => acc
  | f :: rest =>
      if f = "" then acc
      else if f ∈ acc then appendIDFields acc rest
      else appendIDFields (acc ++ [f]) rest

/-- Embeds the per-function part of AZC006 `extractIDFieldsFromFile`: build
the resolver from the whole body, then scan the body's `SetID`/`SetId`
calls in order, resolving each call's first argument. -/
def extractIDFieldsFromFunc (mapping : List (String × String)) (body : List GoStmt) :
    List String :=
  let r := newVariableResolver mapping body
  body.foldl
    (fun acc st =>
      match st with
      | .expr e =>
          match e with
          | .call _ args =>
              if isSetIDCall e then
                match args with
                | a0 :: _ => appendIDFields acc (extractFieldsFromIDArg r a0)
                | [] => acc
              else acc
          | _ => acc
      | .assign _ _ => acc)
    []

/-- The expression `d.Get("f").(string)`. -/
def dGetExpr (f : String) : GoExpr :=
  .typeAssert (.call (.sel (.ident "d") "Get") [.strLit f])

/-- The create-function body of the C3 scenario: bind `rg` and `name` to
field reads, bind `id` to `NewFooID(subVar, rg, name)`, and commit with
`metadata.SetID(commitArg)`. -/
def c3Body (subVar : String) (commitArg : GoExpr) : List GoStmt :=
  [ .assign "rg" (dGetExpr "resource_group_name"),
    .assign "name" (dGetExpr "name"),
    .assign "id" (.call (.sel (.ident "resourceids") "NewFooID")
      [.ident subVar, .ident "rg", .ident "name"]),
    .expr (.call (.sel (.ident "metadata") "SetID") [commitArg]) ]

/-- C3.  For a create function binding `rg := d.Get("resource_group_name")`,
`name := d.Get("name")`, `id := NewFooID(subVar, rg, name)` where the first
argument is an otherwise-unresolvable variable whose lower-cased name
contains "subscription", the tracer yields exactly
`["resource_group_name", "name"]` — the subscription argument is dropped
silently — and the result is identical whether the commit call's argument
is `id` or `id.ID()`. -/
theorem azc006_tracer_drops_subscription_arg (subVar : String)
    (hsub : goContains (lowerStr subVar) "subscription" = true)
    (h1 : subVar ≠ "rg") (h2 : subVar ≠ "name") :
    extractIDFieldsFromFunc [] (c3Body subVar (.ident "id")) =
      ["resource_group_name", "name"] ∧
    extractIDFieldsFromFunc [] (c3Body subVar (.call (.sel (.ident "id") "ID") [])) =
      ["resource_group_name", "name"] := by
  constructor <;>
    simp [extractIDFieldsFromFunc, c3Body, newVariableResolver, vrStep, dGetExpr,
      extractFieldNameFromArg, extractFieldNameFromDGet, extractFieldNameFromModelAccess,
      resolveFieldsFromArgs, resolveFieldsFromArgsAux, resolveFieldName, lookupAssoc,
      isSubscriptionArg, hsub, Ne.symm h1, Ne.symm h2, goStartsWith, goEndsWith, leadsWith,
      isSetIDCall, extractFieldsFromIDArg, appendIDFields]

/-- Witness for `azc006_tracer_drops_subscription_arg` at `subscriptionId`. -/
theorem azc006_tracer_drops_subscription_arg_witness :
    extractIDFieldsFromFunc [] (c3Body "subscriptionId" (.ident "id")) =
      ["resource_group_name", "name"] ∧
    extractIDFieldsFromFunc []
        (c3Body "subscriptionId" (.call (.sel (.ident "id") "ID") [])) =
      ["resource_group_name", "name"] :=
  azc006_tracer_drops_subscription_arg "subscriptionId" (by decide) (by decide) (by decide)

/-- The body of the C9 counterexample: a single binding of `rg` to a member
access on a typed model value whose member has no known tag mapping. -/
def c9Body : List GoStmt :=
  [.assign "rg" (.sel (.ident "model") "ResourceGroupName")]

/-- C9 (counterexample).  The claim asserts that a member access whose tag
mapping is unknown produces no `VariableBinding`.  In AZC006
`extractFieldNameFromModelAccess`, a missing mapping instead falls back to
the PascalCase→snake_case conversion of the member name: with an empty
model-field mapping, `rg := model.ResourceGroupName` still records the
binding `rg → "resource_group_name"`. -/
theorem azc006_model_access_guess_counterexample :
    lookupAssoc ([] : List (String × String)) "ResourceGroupName" = none ∧
    lookupAssoc (newVariableResolver [] c9Body).varToField "rg" =
      some "resource_group_name" := by
  constructor
  · rfl
  · decide

/-- C9 (amended).  For an assignment `v := x.member`, the tracer records a
binding for `v` using the known tag mapping when the member's tag is known
(and non-empty); when the tag is unknown, it does not treat the access as
unresolvable but records the PascalCase→snake_case conversion of the member
name (which is non-empty whenever the member name is). -/
theorem azc006_model_access_fallback (mapping : List (String × String))
    (v member : String) (x : GoExpr) :
    (∀ t, lookupAssoc mapping member = some t → t ≠ "" →
      lookupAssoc (newVariableResolver mapping [.assign v (.sel x member)]).varToField v =
        some t) ∧
    (lookupAssoc mapping member = none → member ≠ "" →
      lookupAssoc (newVariableResolver mapping [.assign v (.sel x member)]).varToField v =
        some (toSnakeCase member)) := by
  have hsnake : member ≠ "" → toSnakeCase member ≠ "" := by
    intro hm
    have hl : member.toList ≠ [] := by
      intro h
      apply hm
      cases member with
      | mk data => simpa [String.toList] using congrArg String.mk h
    cases hc : member.toList with
    | nil => exact absurd hc hl
    | cons c cs =>
        simp only [toSnakeCase, hc, snakeAux]
        intro h
        have := congrArg String.toList h
        simp only [String.toList] at this
        rcases h' : (if !true && ('A' ≤ c && c ≤ 'Z') then ['_', c] else [c]) with _ | _
        · simp at h'
        · rw [h'] at this
          simp at this
  constructor
  · intro t ht htne
    simp [newVariableResolver, vrStep, extractFieldNameFromArg, extractFieldNameFromDGet,
      extractFieldNameFromModelAccess, ht, htne, lookupAssoc]
  · intro hnone hm
    simp [newVariableResolver, vrStep, extractFieldNameFromArg, extractFieldNameFromDGet,
      extractFieldNameFromModelAccess, hnone, hsnake hm, lookupAssoc]

/-- Witness for `azc006_model_access_fallback`: a known tag is used, and an
unknown tag falls back to the snake_case conversion. -/
theorem azc006_model_access_fallback_witness :
    lookupAssoc
        (newVariableResolver [("Enabled", "is_enabled")]
          [.assign "v" (.sel (.ident "model") "Enabled")]).varToField "v" =
      some "is_enabled" ∧
    lookupAssoc
        (newVariableResolver []
          [.assign "v" (.sel (.ident "model") "Enabled")]).varToField "v" =
      some "enabled" :=
  ⟨(azc006_model_access_fallback [("Enabled", "is_enabled")] "v" "Enabled"
      (.ident "model")).1 "is_enabled" (by decide) (by decide),
   (azc006_model_access_fallback [] "v" "Enabled" (.ident "model")).2 rfl (by decide)⟩

/-! ## AZC006 schema-field extraction and expected order

Embeds the self-contained AZC006 implementation: `schemaField`,
`extractSchemaFields`, `getExpectedOrder`, `areOrdersEqual` and the
per-schema-map decision of `run`.  A schema-map entry's value expression is
modelled by the three shapes the extractor distinguishes: an inline
composite literal (with its flags), a call (with the cross-package cache
key and the outcome the same-package resolution strategy would produce),
and any other shape. -/

/-- Embeds the AZC006 `schemaField` struct. -/
structure AZC006SchemaField where
  name : String
  required : Bool
  optional : Bool
  computed : Bool
  position : Nat
deriving DecidableEq

/-- The value-expression shapes distinguished by AZC006
`extractSchemaFields`. -/
inductive SchemaValue where
  | lit (props : SchemaProperties)
  | call (pkgPath funcName : String) (samePkg : Option SchemaProperties)
  | other
deriving DecidableEq

/-- Loop of AZC006 `extractSchemaFields`; `i` is the entry index (`position`
advances for every entry, also skipped ones, as in the Go `range`). -/
def extractSchemaFieldsAux (si : SchemaFunctions) :
    Nat → List (String × SchemaValue) → List AZC006SchemaField
  | _, [] => []
  | i, (n, v) :: rest =>
      match v with
      | .lit p =>
          ⟨n, p.required, p.optional, p.computed, i⟩ :: extractSchemaFieldsAux si (i + 1) rest
      | .call pkg fn samePkg =>
          (match lookupAssoc si (pkg ++ "." ++ fn) with
            | some p => (⟨n, p.required, p.optional, p.computed, i⟩ : AZC006SchemaField)
            | none =>
                match samePkg with
                | some p => ⟨n, p.required, p.optional, p.computed, i⟩
                | none => ⟨n, false, false, false, i⟩)
            :: extractSchemaFieldsAux si (i + 1) rest
      | .other => extractSchemaFieldsAux si (i + 1) rest

/-- Embeds AZC006 `extractSchemaFields`: inline literals keep their flags;
calls are resolved through the shared cache, then through same-package
resolution, and keep the zero-valued flags when both miss; entries of any
other shape are dropped. -/
def extractSchemaFields (si : SchemaFunctions) (entries : List (String × SchemaValue)) :
    List AZC006SchemaField :=
  extractSchemaFieldsAux si 0 entries

/-- The computed-only test used throughout AZC006 `getExpectedOrder`. -/
def azc006ComputedOnly (f : AZC006SchemaField) : Bool :=
  f.computed && !f.optional && !f.required

/-- The five category lists built by AZC006 `getExpectedOrder`. -/
structure AZC006Buckets where
  idFieldsList : List String
  locationField : List String
  requiredFields : List String
  optionalFields : List String
  computedFields : List String

/-- The categorization loop of AZC006 `getExpectedOrder`: each field goes
to exactly one list; on non-nested maps an ID-component field goes to the
ID list (or, when computed-only, to the computed list) and `location` to
the location list (or, when computed-only, to the computed list); otherwise
computed-only fields are computed, required fields required, and everything
else optional. -/
def azc006Collect (idFields : List String) (isNested : Bool) :
    List AZC006SchemaField → AZC006Buckets
  | [] => ⟨[], [], [], [], []⟩
  | f :: rest =>
      let b := azc006Collect idFields isNested rest
      if !isNested && f.name ∈ idFields then
        if azc006ComputedOnly f then { b with computedFields := f.name :: b.computedFields }
        else { b with idFieldsList := f.name :: b.idFieldsList }
      else if !isNested && f.name = "location" then
        if azc006ComputedOnly f then { b with computedFields := f.name :: b.computedFields }
        else { b with locationField := f.name :: b.locationField }
      else if azc006ComputedOnly f then { b with computedFields := f.name :: b.computedFields }
      else if f.required then { b with requiredFields := f.name :: b.requiredFields }
      else if f.optional then { b with optionalFields := f.name :: b.optionalFields }
      else { b with optionalFields := f.name :: b.optionalFields }

/-- Embeds AZC006 `getExpectedOrder`: ID fields, then `location`, then the
required, optional and computed lists each sorted alphabetically. -/
def getExpectedOrder (fields : List AZC006SchemaField) (idFields : List String)
    (isNested : Bool) : List String :=
  (azc006Collect idFields isNested fields).idFieldsList
    ++ (azc006Collect idFields isNested fields).locationField
    ++ sortStrings (azc006Collect idFields isNested fields).requiredFields
    ++ sortStrings (azc006Collect idFields isNested fields).optionalFields
    ++ sortStrings (azc006Collect idFields isNested fields).computedFields

/-- Embeds AZC006 `areOrdersEqual`. -/
def areOrdersEqual : List String → List String → Bool
  | [], [] => true
  | a :: as0, b :: bs => a == b && areOrdersEqual as0 bs
  | _, _ => false

/-- Embeds the per-schema-map decision of AZC006 `run`: extract the fields,
skip empty maps, skip resource/data-source maps whose traced ID field list
is empty, compute expected and actual orders, and report (when the
change-scope service approves) exactly when they differ. -/
def azc006CheckMap (si : SchemaFunctions) (entries : List (String × SchemaValue))
    (idFields : List String) (isResourceOrDataSource isNested shouldReport : Bool) : Bool :=
  let fields := extractSchemaFields si entries
  if fields.length = 0 then false
  else
    let shouldCheckIDAndLocation := isResourceOrDataSource && !isNested
    if shouldCheckIDAndLocation && idFields.length = 0 then false
    else
      let effectiveIDFields := if shouldCheckIDAndLocation then idFields else []
      let expectedOrder := getExpectedOrder fields effectiveIDFields (!shouldCheckIDAndLocation)
      let actualOrder := fields.map (·.name)
      if !areOrdersEqual actualOrder expectedOrder then shouldReport else false

/-- Entries of the C2 counterexample: one call no strategy resolves,
followed by one resolvable required literal. -/
def c2Entries : List (String × SchemaValue) :=
  [("attribute", .call "helperpkg" "AttributeSchema" none),
   ("zone", .lit ⟨true, false, false⟩)]

/-- Entries of the second C2 scenario: an entry of unrecognized value
shape, then two resolvable literals in non-canonical order. -/
def c2EntriesOther : List (String × SchemaValue) :=
  [("broken", .other),
   ("attribute", .lit ⟨false, true, false⟩),
   ("zone", .lit ⟨true, false, false⟩)]

/-- C2 (counterexample).  The claim asserts that a schema map containing a
field whose value expression no strategy resolves gets no Finding.  In
AZC006, an unresolved call keeps zero-valued flags (and is then treated as
optional) and an unrecognized value shape is silently dropped from both
orders, so a Finding is still emitted for such maps. -/
theorem azc006_unresolved_field_finding_counterexample :
    azc006CheckMap [] c2Entries [] false false true = true ∧
    ("attribute", SchemaValue.call "helperpkg" "AttributeSchema" none) ∈ c2Entries ∧
    lookupAssoc ([] : SchemaFunctions) ("helperpkg" ++ "." ++ "AttributeSchema") = none ∧
    azc006CheckMap [] c2EntriesOther [] false false true = true ∧
    ("broken", SchemaValue.other) ∈ c2EntriesOther := by
  refine ⟨?_, by decide, rfl, ?_, by decide⟩ <;> rfl

/-- Two members of a list whose name images form a duplicate-free list and
whose names coincide are equal. -/
theorem eq_of_map_nodup {α : Type} (g : α → String) {l : List α}
    (h : (l.map g).Nodup) {x y : α} (hx : x ∈ l) (hy : y ∈ l) (hxy : g x = g y) :
    x = y := by
  induction l with
  | nil => cases hx
  | cons a rest ih =>
      rw [List.map_cons, List.nodup_cons] at h
      rcases List.mem_cons.mp hx with hxa | hxr <;>
        rcases List.mem_cons.mp hy with hya | hyr
      · exact hxa.trans hya.symm
      · exfalso
        apply h.1
        have hga : g a = g y := by rw [← hxa]; exact hxy
        rw [hga]
        exact List.mem_map_of_mem g hyr
      · exfalso
        apply h.1
        have hga : g a = g x := by rw [← hya]; exact hxy.symm
        rw [hga]
        exact List.mem_map_of_mem g hxr
      · exact ih h.2 hxr hyr

/-- `sortStrings` permutes its input. -/
theorem sortStrings_perm (l : List String) : List.Perm (sortStrings l) l :=
  List.perm_insertionSort (· ≤ ·) l

/-- `sortStrings` sorts its input. -/
theorem sortStrings_sorted (l : List String) : (sortStrings l).Sorted (· ≤ ·) :=
  List.sorted_insertionSort (· ≤ ·) l

/-- `sortStrings` preserves length. -/
theorem sortStrings_length (l : List String) : (sortStrings l).length = l.length :=
  (sortStrings_perm l).length_eq

/-- `sortStrings` preserves membership. -/
theorem sortStrings_mem {x : String} {l : List String} :
    x ∈ sortStrings l ↔ x ∈ l :=
  (sortStrings_perm l).mem_iff

/-- Inserting one element into any of five concatenated lists yields a
permutation of the element consed onto the concatenation's permutation
target. -/
theorem perm_insert_bucket (x : String) (l1 l2 l3 l4 l5 m : List String)
    (h : List.Perm (l1 ++ l2 ++ l3 ++ l4 ++ l5) m) :
    List.Perm ((x :: l1) ++ l2 ++ l3 ++ l4 ++ l5) (x :: m) ∧
    List.Perm (l1 ++ (x :: l2) ++ l3 ++ l4 ++ l5) (x :: m) ∧
    List.Perm (l1 ++ l2 ++ (x :: l3) ++ l4 ++ l5) (x :: m) ∧
    List.Perm (l1 ++ l2 ++ l3 ++ (x :: l4) ++ l5) (x :: m) ∧
    List.Perm (l1 ++ l2 ++ l3 ++ l4 ++ (x :: l5)) (x :: m) := by
  refine ⟨h.cons x, ?_, ?_, ?_, List.perm_middle.trans (h.cons x)⟩
  · exact (((List.perm_middle.append_right l3).append_right l4).append_right l5).trans
      (h.cons x)
  · exact ((List.perm_middle.append_right l4).append_right l5).trans (h.cons x)
  · exact (List.perm_middle.append_right l5).trans (h.cons x)

/-- The raw concatenation of the five AZC006 buckets is a permutation of
the field names: the categorization loop sends every field to exactly one
bucket. -/
theorem azc006_collect_concat_perm (idFields : List String) (isNested : Bool)
    (fields : List AZC006SchemaField) :
    List.Perm
      ((azc006Collect idFields isNested fields).idFieldsList
        ++ (azc006Collect idFields isNested fields).locationField
        ++ (azc006Collect idFields isNested fields).requiredFields
        ++ (azc006Collect idFields isNested fields).optionalFields
        ++ (azc006Collect idFields isNested fields).computedFields)
      (fields.map (·.name)) := by
  induction fields with
  | nil => simp [azc006Collect]
  | cons f rest ih =>
      have H := perm_insert_bucket f.name
        (azc006Collect idFields isNested rest).idFieldsList
        (azc006Collect idFields isNested rest).locationField
        (azc006Collect idFields isNested rest).requiredFields
        (azc006Collect idFields isNested rest).optionalFields
        (azc006Collect idFields isNested rest).computedFields
        (rest.map (·.name)) ih
      simp only [azc006Collect, List.map_cons]
      split_ifs <;> dsimp only <;>
        first
          | exact H.1
          | exact H.2.1
          | exact H.2.2.1
          | exact H.2.2.2.1
          | exact H.2.2.2.2

/-- C8.  For every schema map (whatever the resolution outcomes), every
traced ID field list and both nesting modes, the ExpectedOrder computed by
AZC006 `getExpectedOrder` is a permutation of the actual field-name
sequence: no field name is added and none is dropped.  This holds
unconditionally, hence in particular for maps with fully resolved
descriptors and unambiguous ID provenance. -/
theorem azc006_expected_order_perm (fields : List AZC006SchemaField)
    (idFields : List String) (isNested : Bool) :
    List.Perm (getExpectedOrder fields idFields isNested) (fields.map (·.name)) := by
  unfold getExpectedOrder
  refine List.Perm.trans ?_ (azc006_collect_concat_perm idFields isNested fields)
  exact (((List.Perm.refl _).append (List.Perm.refl _)).append
    (sortStrings_perm _)).append (sortStrings_perm _) |>.append (sortStrings_perm _)

/-- Every name in the AZC006 ID bucket names a non-computed-only field of
the map. -/
theorem azc006_idBucket_mem {idFields : List String} {isNested : Bool}
    {fields : List AZC006SchemaField} {x : String}
    (hx : x ∈ (azc006Collect idFields isNested fields).idFieldsList) :
    ∃ g ∈ fields, g.name = x ∧ azc006ComputedOnly g = false := by
  induction fields with
  | nil => cases hx
  | cons f rest ih =>
      simp only [azc006Collect] at hx
      split_ifs at hx with h1 h2 h3 h4 h5 <;> dsimp only at hx
      on_goal 2 =>
        rcases List.mem_cons.mp hx with rfl | hx
        · exact ⟨f, List.mem_cons_self f rest, rfl, by simpa using h2⟩
      all_goals
        exact Exists.elim (ih hx) fun g hgr => ⟨g, List.mem_cons_of_mem f hgr.1, hgr.2⟩

/-- Every name in the AZC006 location bucket names a non-computed-only
field of the map. -/
theorem azc006_locBucket_mem {idFields : List String} {isNested : Bool}
    {fields : List AZC006SchemaField} {x : String}
    (hx : x ∈ (azc006Collect idFields isNested fields).locationField) :
    ∃ g ∈ fields, g.name = x ∧ azc006ComputedOnly g = false := by
  induction fields with
  | nil => cases hx
  | cons f rest ih =>
      simp only [azc006Collect] at hx
      split_ifs at hx with h1 h2 h3 h4 h5 <;> dsimp only at hx
      on_goal 4 =>
        rcases List.mem_cons.mp hx with rfl | hx
        · exact ⟨f, List.mem_cons_self f rest, rfl, by simpa using h4⟩
      all_goals
        exact Exists.elim (ih hx) fun g hgr => ⟨g, List.mem_cons_of_mem f hgr.1, hgr.2⟩

/-- A computed-only field of the map always lands in the AZC006 computed
bucket. -/
theorem azc006_compBucket_mem {idFields : List String} {isNested : Bool}
    {fields : List AZC006SchemaField} {f : AZC006SchemaField}
    (hf : f ∈ fields) (hco : azc006ComputedOnly f = true) :
    f.name ∈ (azc006Collect idFields isNested fields).computedFields := by
  induction fields with
  | nil => cases hf
  | cons a rest ih =>
      simp only [azc006Collect]
      rcases List.mem_cons.mp hf with rfl | hfr
      · split_ifs <;> dsimp only <;> exact List.mem_cons_self _ _
      · have hmem := ih hfr
        split_ifs <;> dsimp only <;>
          first
            | exact hmem
            | exact List.mem_cons_of_mem _ hmem

/-- C5.  On a non-nested schema map with distinct field names, a field
whose resolved descriptor is computed-only (computed set, optional and
required both unset) never appears in the ID prefix of the ExpectedOrder
and never occupies the location slot; it lands in the computed group,
which is sorted lexicographically. -/
theorem azc006_computed_only_never_id_or_location
    (fields : List AZC006SchemaField) (idFields : List String)
    (f : AZC006SchemaField) (hf : f ∈ fields)
    (hco : azc006ComputedOnly f = true)
    (hnd : (fields.map (·.name)).Nodup) :
    f.name ∉ (getExpectedOrder fields idFields false).take
        (azc006Collect idFields false fields).idFieldsList.length ∧
    f.name ∉ (azc006Collect idFields false fields).locationField ∧
    f.name ∈ sortStrings (azc006Collect idFields false fields).computedFields ∧
    (sortStrings (azc006Collect idFields false fields).computedFields).Sorted (· ≤ ·) ∧
    getExpectedOrder fields idFields false =
      (azc006Collect idFields false fields).idFieldsList
        ++ (azc006Collect idFields false fields).locationField
        ++ sortStrings (azc006Collect idFields false fields).requiredFields
        ++ sortStrings (azc006Collect idFields false fields).optionalFields
        ++ sortStrings (azc006Collect idFields false fields).computedFields := by
  have htake : (getExpectedOrder fields idFields false).take
      (azc006Collect idFields false fields).idFieldsList.length =
      (azc006Collect idFields false fields).idFieldsList := by
    unfold getExpectedOrder
    rw [List.append_assoc, List.append_assoc, List.append_assoc, List.take_left]
  refine ⟨?_, ?_, ?_, sortStrings_sorted _, rfl⟩
  · rw [htake]
    intro hmem
    obtain ⟨g, hg, hname, hgco⟩ := azc006_idBucket_mem hmem
    have : g = f := eq_of_map_nodup (·.name) hnd hg hf hname
    rw [this, hco] at hgco
    cases hgco
  · intro hmem
    obtain ⟨g, hg, hname, hgco⟩ := azc006_locBucket_mem hmem
    have : g = f := eq_of_map_nodup (·.name) hnd hg hf hname
    rw [this, hco] at hgco
    cases hgco
  · exact sortStrings_mem.mpr (azc006_compBucket_mem hf hco)

/-- Fields of the C5 witness: `name` is a required ID component, `status`
is a computed-only field that the tracer also reported as an ID
component. -/
def c5Fields : List AZC006SchemaField :=
  [⟨"name", true, false, false, 0⟩, ⟨"status", false, false, true, 1⟩]

/-- ID field list of the C5 witness. -/
def c5IdFields : List String := ["status", "name"]

/-- The computed-only ID-component field of the C5 witness. -/
def c5Field : AZC006SchemaField := ⟨"status", false, false, true, 1⟩

/-- Witness for `azc006_computed_only_never_id_or_location` at a concrete
map whose traced ID list names a computed-only field. -/
theorem azc006_computed_only_never_id_or_location_witness :
    "status" ∉ (getExpectedOrder c5Fields c5IdFields false).take
        (azc006Collect c5IdFields false c5Fields).idFieldsList.length ∧
    "status" ∉ (azc006Collect c5IdFields false c5Fields).locationField ∧
    "status" ∈ sortStrings (azc006Collect c5IdFields false c5Fields).computedFields ∧
    (sortStrings (azc006Collect c5IdFields false c5Fields).computedFields).Sorted (· ≤ ·) ∧
    getExpectedOrder c5Fields c5IdFields false =
      (azc006Collect c5IdFields false c5Fields).idFieldsList
        ++ (azc006Collect c5IdFields false c5Fields).locationField
        ++ sortStrings (azc006Collect c5IdFields false c5Fields).requiredFields
        ++ sortStrings (azc006Collect c5IdFields false c5Fields).optionalFields
        ++ sortStrings (azc006Collect c5IdFields false c5Fields).computedFields :=
  azc006_computed_only_never_id_or_location c5Fields c5IdFields c5Field
    (by decide) (by decide) (by decide)

/-- Embeds the AZC006 `skipFileSuffix` variable. -/
def skipFileSuffix : List String :=
  ["_test.go", "registration.go", "ip_groups_data_source.go"]

/-- Embeds the suffix-check loop of AZC006 `run`:
`for _, skip := range skipFileSuffix { if strings.HasSuffix(filename, skip) { continue } }`.
The loop body's only statement is `continue`, which advances the loop
itself, so no value escapes the loop. -/
def azc006SuffixLoop (filename : String) : List Bool :=
  skipFileSuffix.map (fun skip => goEndsWith filename skip)

/-- Embeds the per-file gate of AZC006 `run`: a file is processed (its
schema maps extracted and validated) iff the change-scope service marks it
changed; the suffix-check loop has no effect on control flow. -/
def azc006FileGate (isChanged : Bool) (filename : String) : Bool :=
  if !isChanged then false
  else
    let _loop := azc006SuffixLoop filename
    true

/-- `leadsWith` accepts its own argument extended by anything. -/
theorem leadsWith_append_self (p r : List Char) : leadsWith p (p ++ r) = true := by
  induction p with
  | nil => rfl
  | cons c cs ih => simp [leadsWith, ih]

/-- Appending a suffix makes `goEndsWith` true. -/
theorem goEndsWith_append (s t : String) : goEndsWith (s ++ t) t = true := by
  unfold goEndsWith
  have hdata : (s ++ t).toList = s.toList ++ t.toList := String.data_append s t
  rw [hdata, List.reverse_append]
  exact leadsWith_append_self t.toList.reverse s.toList.reverse

/-- C10.  The AZC006 file-suffix skip list is ineffective: every changed
file is processed, even when its name ends in `_test.go` or
`registration.go` and therefore matches the skip list — the `continue` in
the suffix-check loop only advances that inner loop and never skips the
file. -/
theorem azc006_file_suffix_skip_ineffective (s : String) :
    azc006FileGate true (s ++ "_test.go") = true ∧
    skipFileSuffix.any (fun skip => goEndsWith (s ++ "_test.go") skip) = true ∧
    azc006FileGate true (s ++ "registration.go") = true ∧
    skipFileSuffix.any (fun skip => goEndsWith (s ++ "registration.go") skip) = true := by
  refine ⟨rfl, ?_, rfl, ?_⟩
  · have h := goEndsWith_append s "_test.go"
    simp [skipFileSuffix, List.any, h]
  · have h := goEndsWith_append s "registration.go"
    simp [skipFileSuffix, List.any, h]

/-! ## The AZNR001 canonical order builder and validator

Embeds `AZNR001.go`: `helper.SchemaFieldInfo` (a field whose descriptor may
be unresolved, i.e. `nil`), `getAZNR001ExpectedOrder`,
`validateAZNR001Order`, `hasOptionalNameWithExactlyOneOf` and
`checkAZNR001OrderingIssues`. -/

/-- Embeds `helper.SchemaFieldInfo`: field name, resolved flags (or `none`
when the descriptor could not be resolved), and entry position. -/
structure SchemaFieldInfo where
  name : String
  schemaInfo : Option SchemaProperties
  position : Nat
deriving DecidableEq

/-- `field.SchemaInfo != nil && field.SchemaInfo.Schema.Required`. -/
def fieldRequired (f : SchemaFieldInfo) : Bool :=
  match f.schemaInfo with
  | some i => i.required
  | none => false

/-- `field.SchemaInfo != nil && field.SchemaInfo.Schema.Optional`. -/
def fieldOptional (f : SchemaFieldInfo) : Bool :=
  match f.schemaInfo with
  | some i => i.optional
  | none => false

/-- `field.SchemaInfo != nil && field.SchemaInfo.Schema.Computed`. -/
def fieldComputed (f : SchemaFieldInfo) : Bool :=
  match f.schemaInfo with
  | some i => i.computed
  | none => false

/-- Embeds the `locationIsComputed` scan of `getAZNR001ExpectedOrder`. -/
def aznr001LocationIsComputed (fields : List SchemaFieldInfo) : Bool :=
  fields.any (fun f => f.name == "location" && fieldComputed f)

/-- First index satisfying a test (the Go loops set
`lastOptionalIdx`/`firstRequiredIdx` only while they are still `-1`, so
they record the first such index). -/
def goFirstIdx (p : SchemaFieldInfo → Bool) : List SchemaFieldInfo → Option Nat
  | [] => none
  | f :: rest => if p f then some 0 else (goFirstIdx p rest).map (· + 1)

/-- Embeds the `hasOptionalBeforeRequired` computation of
`getAZNR001ExpectedOrder`: the first index holding a resolved optional
field strictly precedes the first index holding a resolved required
field. -/
def aznr001HasOptionalBeforeRequired (fields : List SchemaFieldInfo) : Bool :=
  match goFirstIdx fieldOptional fields, goFirstIdx fieldRequired fields with
  | some o, some r => decide (o < r)
  | _, _ => false

/-- The category lists built by the collection loop of
`getAZNR001ExpectedOrder`: required, optional and computed names in
original order, plus whether a `tags` field was seen. -/
structure AZNRBuckets where
  requiredFields : List String
  optionalFields : List String
  computedFields : List String
  tagsPresent : Bool

/-- The collection loop of `getAZNR001ExpectedOrder`: `tags` is diverted
to the trailing slot, a computed `location` is skipped (re-added in front
of the computed group later), and a resolved field goes to the first
matching of required/optional/computed; unresolved fields are dropped. -/
def aznr001Collect (locComp : Bool) : List SchemaFieldInfo → AZNRBuckets
  | [] => ⟨[], [], [], false⟩
  | f :: rest =>
      let b := aznr001Collect locComp rest
      if f.name == "tags" then { b with tagsPresent := true }
      else if f.name == "location" && locComp then b
      else if fieldRequired f then { b with requiredFields := f.name :: b.requiredFields }
      else if fieldOptional f then { b with optionalFields := f.name :: b.optionalFields }
      else if fieldComputed f then { b with computedFields := f.name :: b.computedFields }
      else b

/-- Last index at which a value occurs (the Go `rgPos`/`locPos` loops keep
overwriting without breaking). -/
def goLastIndexOf (x : String) : List String → Option Nat
  | [] => none
  | a :: rest =>
      match goLastIndexOf x rest with
      | some i => some (i + 1)
      | none => if a = x then some 0 else none

/-- Embeds the required-field fix-up of `getAZNR001ExpectedOrder`: when
both `resource_group_name` and `location` occur among the required names
and `location` comes first, the two positions are swapped (`new[rgPos] :=
old[locPos]`, `new[locPos] := old[rgPos]`). -/
def aznr001SwapLocRg (req : List String) : List String :=
  match goLastIndexOf "resource_group_name" req, goLastIndexOf "location" req with
  | some rgPos, some locPos =>
      if locPos < rgPos then
        (req.set rgPos (req.getD locPos "")).set locPos (req.getD rgPos "")
      else req
  | _, _ => req

/-- Embeds AZNR001 `getAZNR001ExpectedOrder`: required names (with the
location/resource-group fix-up), then optional names (sorted unless an
optional field precedes the first required field), then `location` when it
is computed, then sorted computed names, then `tags`. -/
def getAZNR001ExpectedOrder (fields : List SchemaFieldInfo) : List String :=
  aznr001SwapLocRg
      (aznr001Collect (aznr001LocationIsComputed fields) fields).requiredFields
    ++ (if aznr001HasOptionalBeforeRequired fields then
          (aznr001Collect (aznr001LocationIsComputed fields) fields).optionalFields
        else
          sortStrings (aznr001Collect (aznr001LocationIsComputed fields) fields).optionalFields)
    ++ (if aznr001LocationIsComputed fields then ["location"] else [])
    ++ sortStrings (aznr001Collect (aznr001LocationIsComputed fields) fields).computedFields
    ++ (if (aznr001Collect (aznr001LocationIsComputed fields) fields).tagsPresent
          then ["tags"] else [])

/-- Embeds AZNR001 `validateAZNR001Order`: a length mismatch (unresolved
fields present) silently skips the map; otherwise a mismatching position
yields the diagnostic message. -/
def validateAZNR001Order (fields : List SchemaFieldInfo) (expectedOrder : List String) :
    String :=
  if fields.length ≠ expectedOrder.length then ""
  else if areOrdersEqual (fields.map (·.name)) expectedOrder then ""
  else "schema fields are not in the expected order, please double check the order as mentioned in /guide-new-resource.md or /guide-new-data-source.md"

/-- Embeds AZNR001 `hasOptionalNameWithExactlyOneOf`. -/
def hasOptionalNameWithExactlyOneOf (fields : List SchemaFieldInfo) : Bool :=
  fields.any (fun f => f.name == "name" && fieldOptional f)

/-- Embeds AZNR001 `checkAZNR001OrderingIssues`. -/
def checkAZNR001OrderingIssues (fields : List SchemaFieldInfo) :
    List String × String :=
  if fields.length = 0 then ([], "")
  else if hasOptionalNameWithExactlyOneOf fields then ([], "")
  else
    (getAZNR001ExpectedOrder fields,
     validateAZNR001Order fields (getAZNR001ExpectedOrder fields))

/-- Membership test for the AZNR001 required bucket. -/
def aznrReqPred (lc : Bool) (f : SchemaFieldInfo) : Bool :=
  !(f.name == "tags") && !(f.name == "location" && lc) && fieldRequired f

/-- Membership test for the AZNR001 optional bucket. -/
def aznrOptPred (lc : Bool) (f : SchemaFieldInfo) : Bool :=
  !(f.name == "tags") && !(f.name == "location" && lc) && !(fieldRequired f)
    && fieldOptional f

/-- Membership test for the AZNR001 computed bucket. -/
def aznrCompPred (lc : Bool) (f : SchemaFieldInfo) : Bool :=
  !(f.name == "tags") && !(f.name == "location" && lc) && !(fieldRequired f)
    && !(fieldOptional f) && fieldComputed f

/-- Characterization of the AZNR001 collection loop: each bucket is the
name image of the fields passing its membership test, in original order,
and `tagsPresent` records whether any `tags` field occurs. -/
theorem aznr001_collect_spec (lc : Bool) (fields : List SchemaFieldInfo) :
    (aznr001Collect lc fields).requiredFields =
      (fields.filter (aznrReqPred lc)).map (·.name) ∧
    (aznr001Collect lc fields).optionalFields =
      (fields.filter (aznrOptPred lc)).map (·.name) ∧
    (aznr001Collect lc fields).computedFields =
      (fields.filter (aznrCompPred lc)).map (·.name) ∧
    (aznr001Collect lc fields).tagsPresent =
      fields.any (fun f => f.name == "tags") := by
  induction fields with
  | nil => exact ⟨rfl, rfl, rfl, rfl⟩
  | cons f rest ih =>
      obtain ⟨ih1, ih2, ih3, ih4⟩ := ih
      by_cases h1 : (f.name == "tags") = true
      · simp [aznr001Collect, aznrReqPred, aznrOptPred, aznrCompPred,
          List.filter_cons, h1, ih1, ih2, ih3, ih4]
      · rw [Bool.not_eq_true] at h1
        by_cases h2 : (f.name == "location" && lc) = true
        · simp [aznr001Collect, aznrReqPred, aznrOptPred, aznrCompPred,
            List.filter_cons, h1, h2, ih1, ih2, ih3, ih4]
        · rw [Bool.not_eq_true] at h2
          by_cases h3 : fieldRequired f = true
          · simp [aznr001Collect, aznrReqPred, aznrOptPred, aznrCompPred,
              List.filter_cons, h1, h2, h3, ih1, ih2, ih3, ih4]
          · rw [Bool.not_eq_true] at h3
            by_cases h4 : fieldOptional f = true
            · simp [aznr001Collect, aznrReqPred, aznrOptPred, aznrCompPred,
                List.filter_cons, h1, h2, h3, h4, ih1, ih2, ih3, ih4]
            · rw [Bool.not_eq_true] at h4
              by_cases h5 : fieldComputed f = true
              · simp [aznr001Collect, aznrReqPred, aznrOptPred, aznrCompPred,
                  List.filter_cons, h1, h2, h3, h4, h5, ih1, ih2, ih3, ih4]
              · rw [Bool.not_eq_true] at h5
                simp [aznr001Collect, aznrReqPred, aznrOptPred, aznrCompPred,
                  List.filter_cons, h1, h2, h3, h4, h5, ih1, ih2, ih3, ih4]

/-- A `getD` value is a member of the list or the default. -/
theorem getD_mem_or_default (l : List String) (n : Nat) (d : String) :
    l.getD n d ∈ l ∨ l.getD n d = d := by
  by_cases h : n < l.length
  · rw [List.getD_eq_getElem l d h]
    exact Or.inl (List.getElem_mem h)
  · rw [List.getD_eq_default l d (Nat.le_of_not_lt h)]
    exact Or.inr rfl

/-- Elements of the swapped required list come from the original list or
are the empty-string default. -/
theorem mem_swapLocRg {x : String} {req : List String}
    (h : x ∈ aznr001SwapLocRg req) : x ∈ req ∨ x = "" := by
  unfold aznr001SwapLocRg at h
  rcases hrg : goLastIndexOf "resource_group_name" req with _ | rgPos <;> rw [hrg] at h
  · simp only at h
    exact Or.inl h
  · rcases hloc : goLastIndexOf "location" req with _ | locPos <;> rw [hloc] at h <;>
      simp only at h
    · exact Or.inl h
    · by_cases hlt : locPos < rgPos
      · rw [if_pos hlt] at h
        rcases List.mem_or_eq_of_mem_set h with h2 | h2
        · rcases List.mem_or_eq_of_mem_set h2 with h3 | h3
          · exact Or.inl h3
          · rcases getD_mem_or_default req locPos "" with h4 | h4
            · exact Or.inl (h3 ▸ h4)
            · exact Or.inr (h3 ▸ h4)
        · rcases getD_mem_or_default req rgPos "" with h4 | h4
          · exact Or.inl (h2 ▸ h4)
          · exact Or.inr (h2 ▸ h4)
      · rw [if_neg hlt] at h
        exact Or.inl h

/-- C6.  The AZNR001 expected order puts a `tags` field in the last
position, after every other field: whenever the map contains a field named
`tags`, the ExpectedOrder is some list not containing `tags` followed by
the single final element `tags`. -/
theorem aznr001_tags_last (fields : List SchemaFieldInfo)
    (h : ∃ f ∈ fields, f.name = "tags") :
    ∃ l, getAZNR001ExpectedOrder fields = l ++ ["tags"] ∧ "tags" ∉ l := by
  have spec := aznr001_collect_spec (aznr001LocationIsComputed fields) fields
  have htp : (aznr001Collect (aznr001LocationIsComputed fields) fields).tagsPresent = true := by
    rw [spec.2.2.2, List.any_eq_true]
    obtain ⟨f, hf, hn⟩ := h
    exact ⟨f, hf, by simp [hn]⟩
  refine ⟨aznr001SwapLocRg
      (aznr001Collect (aznr001LocationIsComputed fields) fields).requiredFields
    ++ (if aznr001HasOptionalBeforeRequired fields
          then (aznr001Collect (aznr001LocationIsComputed fields) fields).optionalFields
          else sortStrings
            ((aznr001Collect (aznr001LocationIsComputed fields) fields).optionalFields))
    ++ (if aznr001LocationIsComputed fields then ["location"] else [])
    ++ sortStrings
      ((aznr001Collect (aznr001LocationIsComputed fields) fields).computedFields), ?_, ?_⟩
  · unfold getAZNR001ExpectedOrder
    rw [htp]
    rfl
  · intro hmem
    simp only [List.mem_append] at hmem
    have hreq : "tags" ∉ aznr001SwapLocRg
        (aznr001Collect (aznr001LocationIsComputed fields) fields).requiredFields := by
      intro hin
      rcases mem_swapLocRg hin with hin2 | hin2
      · rw [spec.1] at hin2
        obtain ⟨g, hg, hgn⟩ := List.mem_map.mp hin2
        have := (List.mem_filter.mp hg).2
        rw [aznrReqPred, hgn] at this
        simp at this
      · exact absurd hin2 (by decide)
    have hopt : "tags" ∉ (aznr001Collect (aznr001LocationIsComputed fields) fields).optionalFields := by
      intro hin
      rw [spec.2.1] at hin
      obtain ⟨g, hg, hgn⟩ := List.mem_map.mp hin
      have := (List.mem_filter.mp hg).2
      rw [aznrOptPred, hgn] at this
      simp at this
    have hcomp : "tags" ∉ (aznr001Collect (aznr001LocationIsComputed fields) fields).computedFields := by
      intro hin
      rw [spec.2.2.1] at hin
      obtain ⟨g, hg, hgn⟩ := List.mem_map.mp hin
      have := (List.mem_filter.mp hg).2
      rw [aznrCompPred, hgn] at this
      simp at this
    rcases hmem with ((hm | hm) | hm) | hm
    · exact hreq hm
    · rcases hcase : aznr001HasOptionalBeforeRequired fields <;> rw [hcase] at hm
      · exact hopt (sortStrings_mem.mp (by simpa using hm))
      · exact hopt (by simpa using hm)
    · rcases hloc : aznr001LocationIsComputed fields <;> rw [hloc] at hm
      · cases hm
      · simp at hm
    · exact hcomp (sortStrings_mem.mp hm)

/-- Fields of the C6 witness: `{b: optional, tags: optional, a: required}`. -/
def c6Fields : List SchemaFieldInfo :=
  [⟨"b", some ⟨false, true, false⟩, 0⟩,
   ⟨"tags", some ⟨false, true, false⟩, 1⟩,
   ⟨"a", some ⟨true, false, false⟩, 2⟩]

/-- Witness for `aznr001_tags_last`: on `{b: optional, tags: optional,
a: required}` the ExpectedOrder is `[a, b, tags]`, and the theorem applies
with its hypothesis discharged. -/
theorem aznr001_tags_last_witness :
    getAZNR001ExpectedOrder c6Fields = ["a", "b", "tags"] ∧
    ∃ l, getAZNR001ExpectedOrder c6Fields = l ++ ["tags"] ∧ "tags" ∉ l :=
  ⟨by decide, aznr001_tags_last c6Fields (by decide)⟩

/-- Default field value used for indexed access in specifications. -/
def aznrDefaultField : SchemaFieldInfo := ⟨"", none, 0⟩

/-- `goFirstIdx` computes exactly the first index satisfying the test. -/
theorem goFirstIdx_eq_some_iff (p : SchemaFieldInfo → Bool)
    (l : List SchemaFieldInfo) (n : Nat) :
    goFirstIdx p l = some n ↔
      n < l.length ∧ p (l.getD n aznrDefaultField) = true ∧
        ∀ k, k < n → p (l.getD k aznrDefaultField) = false := by
  induction l generalizing n with
  | nil => simp [goFirstIdx]
  | cons f rest ih =>
      by_cases hp : p f = true
      · simp only [goFirstIdx, hp, if_true, List.length_cons]
        constructor
        · intro h
          injection h with h
          subst h
          exact ⟨Nat.succ_pos _, by simpa [List.getD_cons_zero] using hp,
            fun k hk => absurd hk (Nat.not_lt_zero k)⟩
        · rintro ⟨hn, hpn, hbefore⟩
          cases n with
          | zero => rfl
          | succ m =>
              have h0 := hbefore 0 (Nat.succ_pos m)
              rw [List.getD_cons_zero, hp] at h0
              cases h0
      · rw [Bool.not_eq_true] at hp
        simp only [goFirstIdx, hp, Bool.false_eq_true, if_false, List.length_cons]
        cases n with
        | zero =>
            simp only [List.getD_cons_zero, hp, Option.map_eq_some']
            constructor
            · rintro ⟨a, _, ha⟩
              cases ha
            · rintro ⟨_, hfalse, _⟩
              cases hfalse
        | succ m =>
            simp only [Option.map_eq_some', List.getD_cons_succ]
            constructor
            · rintro ⟨a, ha, haeq⟩
              have ham : a = m := by omega
              rw [ham] at ha
              obtain ⟨h1, h2, h3⟩ := (ih m).mp ha
              refine ⟨by omega, h2, ?_⟩
              intro k hk
              cases k with
              | zero => rw [List.getD_cons_zero]; exact hp
              | succ j => rw [List.getD_cons_succ]; exact h3 j (by omega)
            · rintro ⟨h1, h2, h3⟩
              refine ⟨m, (ih m).mpr ⟨by omega, h2, ?_⟩, rfl⟩
              intro k hk
              have := h3 (k + 1) (by omega)
              rwa [List.getD_cons_succ] at this

/-- If some index satisfies the test, `goFirstIdx` finds an index no
later. -/
theorem goFirstIdx_le_of_found (p : SchemaFieldInfo → Bool)
    (l : List SchemaFieldInfo) (i : Nat) (hi : i < l.length)
    (hp : p (l.getD i aznrDefaultField) = true) :
    ∃ o, goFirstIdx p l = some o ∧ o ≤ i := by
  induction l generalizing i with
  | nil => exact absurd hi (Nat.not_lt_zero i)
  | cons f rest ih =>
      by_cases hpf : p f = true
      · exact ⟨0, by simp [goFirstIdx, hpf], Nat.zero_le i⟩
      · rw [Bool.not_eq_true] at hpf
        cases i with
        | zero =>
            rw [List.getD_cons_zero, hpf] at hp
            cases hp
        | succ m =>
            rw [List.getD_cons_succ] at hp
            obtain ⟨o, ho, hle⟩ := ih m (Nat.lt_of_succ_lt_succ hi) hp
            exact ⟨o + 1, by simp [goFirstIdx, hpf, ho], Nat.succ_le_succ hle⟩

/-- The specification-side reading of the optional-order exception: some
optional field's declared position strictly precedes the first required
field's declared position. -/
def optionalPrecedesFirstRequired (fields : List SchemaFieldInfo) : Prop :=
  ∃ r, r < fields.length ∧ fieldRequired (fields.getD r aznrDefaultField) = true ∧
    (∀ k, k < r → fieldRequired (fields.getD k aznrDefaultField) = false) ∧
    ∃ i, i < r ∧ fieldOptional (fields.getD i aznrDefaultField) = true

/-- C7.  In the AZNR001 expected order, the optional fields occupy the
segment right after the required fields; that segment is the optional
names sorted lexicographically, except when some optional field's actual
position precedes the first required field's actual position, in which
case it is the optional names in their original relative order.  The
second conjunct relates the code's test to the specification's reading of
the exception. -/
theorem aznr001_optional_sort_dichotomy (fields : List SchemaFieldInfo) :
    ((getAZNR001ExpectedOrder fields).drop
        (aznr001SwapLocRg
          ((aznr001Collect (aznr001LocationIsComputed fields) fields).requiredFields)).length).take
        ((aznr001Collect (aznr001LocationIsComputed fields) fields).optionalFields).length =
      (if aznr001HasOptionalBeforeRequired fields
        then (aznr001Collect (aznr001LocationIsComputed fields) fields).optionalFields
        else sortStrings
          ((aznr001Collect (aznr001LocationIsComputed fields) fields).optionalFields)) ∧
    (aznr001HasOptionalBeforeRequired fields = true ↔
      optionalPrecedesFirstRequired fields) := by
  constructor
  · unfold getAZNR001ExpectedOrder
    rw [List.append_assoc, List.append_assoc, List.append_assoc, List.drop_left]
    cases hb : aznr001HasOptionalBeforeRequired fields <;>
      simp only [hb, Bool.false_eq_true, if_false, if_true]
    · exact List.take_left' (sortStrings_length _)
    · exact List.take_left' rfl
  · unfold aznr001HasOptionalBeforeRequired
    constructor
    · intro h
      rcases ho : goFirstIdx fieldOptional fields with _ | o <;> rw [ho] at h <;>
        rcases hr : goFirstIdx fieldRequired fields with _ | r <;> rw [hr] at h <;>
        simp only at h
      · cases h
      · cases h
      · cases h
      · obtain ⟨hrlen, hreq, hbefore⟩ := (goFirstIdx_eq_some_iff _ _ _).mp hr
        obtain ⟨_, hopt, _⟩ := (goFirstIdx_eq_some_iff _ _ _).mp ho
        exact ⟨r, hrlen, hreq, hbefore, o, of_decide_eq_true h, hopt⟩
    · rintro ⟨r, hrlen, hreq, hbefore, i, hir, hiopt⟩
      have hr : goFirstIdx fieldRequired fields = some r :=
        (goFirstIdx_eq_some_iff _ _ _).mpr ⟨hrlen, hreq, hbefore⟩
      obtain ⟨o, ho, hoi⟩ :=
        goFirstIdx_le_of_found fieldOptional fields i (lt_trans hir hrlen) hiopt
      rw [ho, hr]
      simp only
      exact decide_eq_true (lt_of_le_of_lt hoi hir)

/-- `goLastIndexOf` misses exactly the absent values. -/
theorem goLastIndexOf_eq_none {x : String} {l : List String} (h : x ∉ l) :
    goLastIndexOf x l = none := by
  induction l with
  | nil => rfl
  | cons a rest ih =>
      have hx : x ∉ rest := fun hm => h (List.mem_cons_of_mem a hm)
      have ha : a ≠ x := fun he => h (he ▸ List.mem_cons_self a rest)
      simp [goLastIndexOf, ih hx, ha]

/-- On a duplicate-free list the last index of a present value is its
(unique) index. -/
theorem goLastIndexOf_nodup {x : String} {l : List String} (hnd : l.Nodup)
    (hx : x ∈ l) : goLastIndexOf x l = some (l.indexOf x) := by
  induction l with
  | nil => cases hx
  | cons a rest ih =>
      rw [List.nodup_cons] at hnd
      rcases List.mem_cons.mp hx with rfl | hxr
      · simp [goLastIndexOf, goLastIndexOf_eq_none hnd.1, List.indexOf_cons_self]
      · have hax : x ≠ a := fun he => hnd.1 (he ▸ hxr)
        simp only [goLastIndexOf, ih hnd.2 hxr]
        exact congrArg some (List.indexOf_cons_ne _ (Ne.symm hax)).symm

/-- The required-field fix-up never changes the list length. -/
theorem aznr001SwapLocRg_length (req : List String) :
    (aznr001SwapLocRg req).length = req.length := by
  unfold aznr001SwapLocRg
  rcases goLastIndexOf "resource_group_name" req with _ | rgPos <;>
    rcases goLastIndexOf "location" req with _ | locPos <;>
    simp only
  all_goals first
    | rfl
    | (split <;> simp [List.length_set])

/-- The claim-side required-field sequence: names of the required fields in
original declared order. -/
def aznr001RequiredNames (fields : List SchemaFieldInfo) : List String :=
  (fields.filter fieldRequired).map (·.name)

/-- C4 (amended).  For a map with distinct field names in which `location`
is required and not computed, `resource_group_name` is required, and no
required field is named `tags`, the required-field segment of the AZNR001
expected order is the required names in their original relative order with
exactly one fix-up: when `location` precedes `resource_group_name` the two
positions are swapped; every position other than those two is unchanged. -/
theorem aznr001_required_order_swap (fields : List SchemaFieldInfo)
    (hnd : (fields.map (·.name)).Nodup)
    (hloc : ∃ fl ∈ fields, fl.name = "location" ∧ fieldRequired fl = true ∧
      fieldComputed fl = false)
    (hrg : ∃ fr ∈ fields, fr.name = "resource_group_name" ∧ fieldRequired fr = true)
    (htags : ∀ f ∈ fields, f.name = "tags" → fieldRequired f = false) :
    ((aznr001RequiredNames fields).indexOf "location" <
        (aznr001RequiredNames fields).indexOf "resource_group_name" →
      (getAZNR001ExpectedOrder fields).take (aznr001RequiredNames fields).length =
        (((aznr001RequiredNames fields).set
            ((aznr001RequiredNames fields).indexOf "resource_group_name") "location").set
          ((aznr001RequiredNames fields).indexOf "location") "resource_group_name")) ∧
    (¬ ((aznr001RequiredNames fields).indexOf "location" <
        (aznr001RequiredNames fields).indexOf "resource_group_name") →
      (getAZNR001ExpectedOrder fields).take (aznr001RequiredNames fields).length =
        aznr001RequiredNames fields) ∧
    (∀ k, k ≠ (aznr001RequiredNames fields).indexOf "location" →
      k ≠ (aznr001RequiredNames fields).indexOf "resource_group_name" →
      ((getAZNR001ExpectedOrder fields).take (aznr001RequiredNames fields).length).getD k ""
        = (aznr001RequiredNames fields).getD k "") := by
  obtain ⟨fl, hflmem, hfln, hflreq, hflnc⟩ := hloc
  obtain ⟨fr, hfrmem, hfrn, hfrreq⟩ := hrg
  have hlc : aznr001LocationIsComputed fields = false := by
    cases hany : fields.any (fun f => f.name == "location" && fieldComputed f) with
    | false => exact hany
    | true =>
        exfalso
        obtain ⟨g, hg, hcond⟩ := List.any_eq_true.mp hany
        rw [Bool.and_eq_true, beq_iff_eq] at hcond
        have hgeq : g = fl := eq_of_map_nodup (·.name) hnd hg hflmem
          (by simp only [hcond.1, hfln])
        rw [hgeq, hflnc] at hcond
        exact Bool.false_ne_true hcond.2
  have hreqb : (aznr001Collect (aznr001LocationIsComputed fields) fields).requiredFields
      = aznr001RequiredNames fields := by
    rw [hlc, (aznr001_collect_spec false fields).1, aznr001RequiredNames]
    congr 1
    apply List.filter_congr
    intro g hg
    unfold aznrReqPred
    by_cases hgr : fieldRequired g = true
    · have hgt : (g.name == "tags") = false := by
        by_cases ht : g.name = "tags"
        · rw [htags g hg ht] at hgr
          cases hgr
        · exact beq_eq_false_iff_ne.mpr ht
      simp [hgt, hgr]
    · rw [Bool.not_eq_true] at hgr
      simp [hgr]
  have hreqnd : (aznr001RequiredNames fields).Nodup := by
    unfold aznr001RequiredNames
    exact hnd.sublist ((List.filter_sublist fields).map (·.name))
  have hlocmem : "location" ∈ aznr001RequiredNames fields :=
    List.mem_map.mpr ⟨fl, List.mem_filter.mpr ⟨hflmem, hflreq⟩, hfln⟩
  have hrgmem : "resource_group_name" ∈ aznr001RequiredNames fields :=
    List.mem_map.mpr ⟨fr, List.mem_filter.mpr ⟨hfrmem, hfrreq⟩, hfrn⟩
  have hli : (aznr001RequiredNames fields).indexOf "location" <
      (aznr001RequiredNames fields).length := List.indexOf_lt_length.mpr hlocmem
  have hri : (aznr001RequiredNames fields).indexOf "resource_group_name" <
      (aznr001RequiredNames fields).length := List.indexOf_lt_length.mpr hrgmem
  have hgetli : (aznr001RequiredNames fields).getD
      ((aznr001RequiredNames fields).indexOf "location") "" = "location" := by
    rw [List.getD_eq_getElem _ _ hli]
    exact List.getElem_indexOf hli
  have hgetri : (aznr001RequiredNames fields).getD
      ((aznr001RequiredNames fields).indexOf "resource_group_name") "" =
      "resource_group_name" := by
    rw [List.getD_eq_getElem _ _ hri]
    exact List.getElem_indexOf hri
  have hswap : aznr001SwapLocRg (aznr001RequiredNames fields) =
      if (aznr001RequiredNames fields).indexOf "location" <
          (aznr001RequiredNames fields).indexOf "resource_group_name" then
        (((aznr001RequiredNames fields).set
            ((aznr001RequiredNames fields).indexOf "resource_group_name") "location").set
          ((aznr001RequiredNames fields).indexOf "location") "resource_group_name")
      else aznr001RequiredNames fields := by
    unfold aznr001SwapLocRg
    rw [goLastIndexOf_nodup hreqnd hrgmem, goLastIndexOf_nodup hreqnd hlocmem]
    simp only
    rw [hgetli, hgetri]
  have hexp : (getAZNR001ExpectedOrder fields).take (aznr001RequiredNames fields).length
      = aznr001SwapLocRg (aznr001RequiredNames fields) := by
    unfold getAZNR001ExpectedOrder
    rw [hreqb]
    rw [List.append_assoc, List.append_assoc, List.append_assoc]
    exact List.take_left' (aznr001SwapLocRg_length _)
  refine ⟨?_, ?_, ?_⟩
  · intro hlt
    rw [hexp, hswap, if_pos hlt]
  · intro hnlt
    rw [hexp, hswap, if_neg hnlt]
  · intro k hkl hkr
    rw [hexp, hswap]
    by_cases hlt : (aznr001RequiredNames fields).indexOf "location" <
        (aznr001RequiredNames fields).indexOf "resource_group_name"
    · rw [if_pos hlt, List.getD_eq_getElem?_getD, List.getD_eq_getElem?_getD,
        List.getElem?_set_ne (Ne.symm hkl), List.getElem?_set_ne (Ne.symm hkr)]
    · rw [if_neg hlt]

/-- Fields of the C4 counterexample: `location` is required *and* carries
the computed flag; all three fields are required. -/
def c4CexFields : List SchemaFieldInfo :=
  [⟨"location", some ⟨true, false, true⟩, 0⟩,
   ⟨"name", some ⟨true, false, false⟩, 1⟩,
   ⟨"resource_group_name", some ⟨true, false, false⟩, 2⟩]

/-- C4 (counterexample).  The claim promises that whenever both a
resource-group-name field and `location` are required, the required fields
keep their original relative order with only the location/resource-group
swap.  With required order `[location, name, resource_group_name]` where
`location` also carries the computed flag, that predicts the ExpectedOrder
`[resource_group_name, name, location]`; the builder instead diverts the
computed `location` to the computed group and produces
`[name, resource_group_name, location]`. -/
theorem aznr001_required_swap_counterexample :
    (∃ fl ∈ c4CexFields, fl.name = "location" ∧ fieldRequired fl = true) ∧
    (∃ fr ∈ c4CexFields, fr.name = "resource_group_name" ∧ fieldRequired fr = true) ∧
    aznr001RequiredNames c4CexFields = ["location", "name", "resource_group_name"] ∧
    getAZNR001ExpectedOrder c4CexFields = ["name", "resource_group_name", "location"] ∧
    getAZNR001ExpectedOrder c4CexFields ≠ ["resource_group_name", "name", "location"] := by
  refine ⟨by decide, by decide, by decide, by decide, by decide⟩

/-- Fields of the C4 witness: the spec's example, required order
`[location, resource_group_name, name]`. -/
def c4Fields : List SchemaFieldInfo :=
  [⟨"location", some ⟨true, false, false⟩, 0⟩,
   ⟨"resource_group_name", some ⟨true, false, false⟩, 1⟩,
   ⟨"name", some ⟨true, false, false⟩, 2⟩]

/-- Witness for `aznr001_required_order_swap` at the spec's example. -/
theorem aznr001_required_order_swap_witness :
    ((aznr001RequiredNames c4Fields).indexOf "location" <
        (aznr001RequiredNames c4Fields).indexOf "resource_group_name" →
      (getAZNR001ExpectedOrder c4Fields).take (aznr001RequiredNames c4Fields).length =
        (((aznr001RequiredNames c4Fields).set
            ((aznr001RequiredNames c4Fields).indexOf "resource_group_name") "location").set
          ((aznr001RequiredNames c4Fields).indexOf "location") "resource_group_name")) ∧
    (¬ ((aznr001RequiredNames c4Fields).indexOf "location" <
        (aznr001RequiredNames c4Fields).indexOf "resource_group_name") →
      (getAZNR001ExpectedOrder c4Fields).take (aznr001RequiredNames c4Fields).length =
        aznr001RequiredNames c4Fields) ∧
    (∀ k, k ≠ (aznr001RequiredNames c4Fields).indexOf "location" →
      k ≠ (aznr001RequiredNames c4Fields).indexOf "resource_group_name" →
      ((getAZNR001ExpectedOrder c4Fields).take
          (aznr001RequiredNames c4Fields).length).getD k ""
        = (aznr001RequiredNames c4Fields).getD k "") :=
  aznr001_required_order_swap c4Fields (by decide) (by decide) (by decide) (by decide)

/-- `countP` distributes over a disjunction of predicates that never hold
together. -/
theorem countP_or_disjoint {α : Type} (p q : α → Bool) (l : List α)
    (h : ∀ a ∈ l, ¬(p a = true ∧ q a = true)) :
    l.countP (fun a => p a || q a) = l.countP p + l.countP q := by
  induction l with
  | nil => rfl
  | cons a rest ih =>
      have hrest := fun b hb => h b (List.mem_cons_of_mem a hb)
      rw [List.countP_cons, List.countP_cons, List.countP_cons, ih hrest]
      by_cases hp : p a = true
      · have hq : q a = false := by
          rcases Bool.eq_false_or_eq_true (q a) with h1 | h1
          · exact absurd ⟨hp, h1⟩ (h a (List.mem_cons_self a rest))
          · exact h1
        simp [hp, hq]
        omega
      · rw [Bool.not_eq_true] at hp
        simp [hp]
        omega

/-- An unresolved descriptor defeats all three flag tests. -/
theorem flag_some_of_true (g : SchemaFieldInfo)
    (hg : fieldRequired g = true ∨ fieldOptional g = true ∨ fieldComputed g = true) :
    g.schemaInfo.isNone = false := by
  cases hsi : g.schemaInfo with
  | some _ => rfl
  | none =>
      rcases hg with h1 | h1 | h1
      · simp [fieldRequired, hsi] at h1
      · simp [fieldOptional, hsi] at h1
      · simp [fieldComputed, hsi] at h1

/-- The class of fields the amended C2 claim is about: unresolved
descriptor, not named `tags` or `location`. -/
def aznrMissingPred (f : SchemaFieldInfo) : Bool :=
  f.schemaInfo.isNone && !(f.name == "tags") && !(f.name == "location")

/-- C2 (amended).  In the AZNR001 validator, a schema map containing a
field whose descriptor is unresolved (and whose name is neither `tags` nor
`location`) yields no finding: the unresolved field is dropped from the
expected order, the lengths disagree, and the length guard silently skips
the map. -/
theorem aznr001_unresolved_field_skips_finding (fields : List SchemaFieldInfo)
    (h : ∃ f ∈ fields, f.schemaInfo = none ∧ f.name ≠ "tags" ∧ f.name ≠ "location") :
    (checkAZNR001OrderingIssues fields).2 = "" := by
  obtain ⟨f0, hf0mem, hf0none, hf0tags, hf0loc⟩ := h
  have spec := aznr001_collect_spec (aznr001LocationIsComputed fields) fields
  have hreqlen :
      (aznr001Collect (aznr001LocationIsComputed fields) fields).requiredFields.length
      = fields.countP (aznrReqPred (aznr001LocationIsComputed fields)) := by
    rw [spec.1, List.length_map, ← List.countP_eq_length_filter]
  have hoptlen :
      (aznr001Collect (aznr001LocationIsComputed fields) fields).optionalFields.length
      = fields.countP (aznrOptPred (aznr001LocationIsComputed fields)) := by
    rw [spec.2.1, List.length_map, ← List.countP_eq_length_filter]
  have hcomplen :
      (aznr001Collect (aznr001LocationIsComputed fields) fields).computedFields.length
      = fields.countP (aznrCompPred (aznr001LocationIsComputed fields)) := by
    rw [spec.2.2.1, List.length_map, ← List.countP_eq_length_filter]
  have hd1 : ∀ g ∈ fields,
      ¬(aznrReqPred (aznr001LocationIsComputed fields) g = true ∧
        aznrOptPred (aznr001LocationIsComputed fields) g = true) := by
    rintro g - ⟨h1, h2⟩
    unfold aznrReqPred at h1
    unfold aznrOptPred at h2
    simp only [Bool.and_eq_true, Bool.not_eq_true'] at h1 h2
    exact Bool.false_ne_true (h1.2.symm.trans h2.1.2).symm
  have hd2 : ∀ g ∈ fields,
      ¬((aznrReqPred (aznr001LocationIsComputed fields) g ||
          aznrOptPred (aznr001LocationIsComputed fields) g) = true ∧
        aznrCompPred (aznr001LocationIsComputed fields) g = true) := by
    rintro g - ⟨h1, h2⟩
    rw [Bool.or_eq_true] at h1
    unfold aznrCompPred at h2
    simp only [Bool.and_eq_true, Bool.not_eq_true'] at h2
    rcases h1 with h1 | h1
    · unfold aznrReqPred at h1
      simp only [Bool.and_eq_true] at h1
      exact Bool.false_ne_true (h1.2.symm.trans h2.1.1.2).symm
    · unfold aznrOptPred at h1
      simp only [Bool.and_eq_true] at h1
      exact Bool.false_ne_true (h1.2.symm.trans h2.1.2).symm
  have hsum : fields.countP (fun g =>
        (aznrReqPred (aznr001LocationIsComputed fields) g ||
          aznrOptPred (aznr001LocationIsComputed fields) g) ||
        aznrCompPred (aznr001LocationIsComputed fields) g)
      = fields.countP (aznrReqPred (aznr001LocationIsComputed fields))
        + fields.countP (aznrOptPred (aznr001LocationIsComputed fields))
        + fields.countP (aznrCompPred (aznr001LocationIsComputed fields)) := by
    rw [countP_or_disjoint _ _ _ hd2, countP_or_disjoint _ _ _ hd1]
  have hmono : fields.countP (fun g =>
        (aznrReqPred (aznr001LocationIsComputed fields) g ||
          aznrOptPred (aznr001LocationIsComputed fields) g) ||
        aznrCompPred (aznr001LocationIsComputed fields) g)
      ≤ fields.countP (fun g => decide (¬((g.name == "tags" ||
          (g.name == "location" && aznr001LocationIsComputed fields)) ||
          aznrMissingPred g) = true)) := by
    apply List.countP_mono_left
    intro g _ hg
    rw [Bool.or_eq_true, Bool.or_eq_true] at hg
    have hABC : (g.name == "tags") = false ∧
        (g.name == "location" && aznr001LocationIsComputed fields) = false ∧
        g.schemaInfo.isNone = false := by
      rcases hg with (h1 | h1) | h1
      · unfold aznrReqPred at h1
        simp only [Bool.and_eq_true, Bool.not_eq_true'] at h1
        exact ⟨h1.1.1, h1.1.2, flag_some_of_true g (Or.inl h1.2)⟩
      · unfold aznrOptPred at h1
        simp only [Bool.and_eq_true, Bool.not_eq_true'] at h1
        exact ⟨h1.1.1.1, h1.1.1.2, flag_some_of_true g (Or.inr (Or.inl h1.2))⟩
      · unfold aznrCompPred at h1
        simp only [Bool.and_eq_true, Bool.not_eq_true'] at h1
        exact ⟨h1.1.1.1.1, h1.1.1.1.2, flag_some_of_true g (Or.inr (Or.inr h1.2))⟩
    simp [aznrMissingPred, hABC.1, hABC.2.1, hABC.2.2]
  have hcompl : fields.length = fields.countP (fun g => (g.name == "tags" ||
        (g.name == "location" && aznr001LocationIsComputed fields)) ||
        aznrMissingPred g)
      + fields.countP (fun g => decide (¬((g.name == "tags" ||
          (g.name == "location" && aznr001LocationIsComputed fields)) ||
          aznrMissingPred g) = true)) :=
    List.length_eq_countP_add_countP _ fields
  have hq : fields.countP (fun g => (g.name == "tags" ||
        (g.name == "location" && aznr001LocationIsComputed fields)) ||
        aznrMissingPred g)
      = fields.countP (fun g => g.name == "tags")
        + fields.countP (fun g => g.name == "location" && aznr001LocationIsComputed fields)
        + fields.countP aznrMissingPred := by
    rw [countP_or_disjoint _ _ _ ?d4, countP_or_disjoint _ _ _ ?d3]
    case d3 =>
      rintro g - ⟨h1, h2⟩
      rw [Bool.and_eq_true, beq_iff_eq] at h2
      rw [beq_iff_eq] at h1
      rw [h1] at h2
      exact absurd h2.1 (by decide)
    case d4 =>
      rintro g - ⟨h1, h2⟩
      unfold aznrMissingPred at h2
      simp only [Bool.and_eq_true, Bool.not_eq_true'] at h2
      rw [Bool.or_eq_true] at h1
      rcases h1 with h1 | h1
      · exact Bool.false_ne_true (h1.symm.trans h2.1.2).symm
      · rw [Bool.and_eq_true] at h1
        exact Bool.false_ne_true (h1.1.symm.trans h2.2).symm
  have hmiss : 1 ≤ fields.countP aznrMissingPred :=
    List.countP_pos_iff.mpr ⟨f0, hf0mem, by
      simp [aznrMissingPred, hf0none, hf0tags, hf0loc]⟩
  have hboundTP : (if (aznr001Collect (aznr001LocationIsComputed fields) fields).tagsPresent
        then 1 else 0)
      ≤ fields.countP (fun g => g.name == "tags") := by
    by_cases hTP : (aznr001Collect (aznr001LocationIsComputed fields) fields).tagsPresent = true
    · rw [if_pos hTP]
      rw [spec.2.2.2] at hTP
      obtain ⟨g, hg, hgt⟩ := List.any_eq_true.mp hTP
      exact List.countP_pos_iff.mpr ⟨g, hg, hgt⟩
    · rw [if_neg hTP]
      exact Nat.zero_le _
  have hboundLC : (if aznr001LocationIsComputed fields then 1 else 0)
      ≤ fields.countP (fun g => g.name == "location" && aznr001LocationIsComputed fields) := by
    by_cases hLC : aznr001LocationIsComputed fields = true
    · rw [if_pos hLC]
      have hany := hLC
      unfold aznr001LocationIsComputed at hany
      obtain ⟨g, hg, hgt⟩ := List.any_eq_true.mp hany
      rw [Bool.and_eq_true] at hgt
      refine List.countP_pos_iff.mpr ⟨g, hg, ?_⟩
      rw [Bool.and_eq_true]
      exact ⟨hgt.1, hLC⟩
    · rw [if_neg hLC]
      exact Nat.zero_le _
  have hexplen : (getAZNR001ExpectedOrder fields).length
      = fields.countP (aznrReqPred (aznr001LocationIsComputed fields))
        + fields.countP (aznrOptPred (aznr001LocationIsComputed fields))
        + fields.countP (aznrCompPred (aznr001LocationIsComputed fields))
        + (if aznr001LocationIsComputed fields then 1 else 0)
        + (if (aznr001Collect (aznr001LocationIsComputed fields) fields).tagsPresent
            then 1 else 0) := by
    have h2 : (if aznr001HasOptionalBeforeRequired fields
          then (aznr001Collect (aznr001LocationIsComputed fields) fields).optionalFields
          else sortStrings
            ((aznr001Collect (aznr001LocationIsComputed fields) fields).optionalFields)).length
        = fields.countP (aznrOptPred (aznr001LocationIsComputed fields)) := by
      split
      · exact hoptlen
      · rw [sortStrings_length]
        exact hoptlen
    have h3 : (if aznr001LocationIsComputed fields then ["location"] else ([] : List String)).length
        = (if aznr001LocationIsComputed fields then 1 else 0) := by
      split <;> rfl
    have h5 : (if (aznr001Collect (aznr001LocationIsComputed fields) fields).tagsPresent
          then ["tags"] else ([] : List String)).length
        = (if (aznr001Collect (aznr001LocationIsComputed fields) fields).tagsPresent
            then 1 else 0) := by
      split <;> rfl
    unfold getAZNR001ExpectedOrder
    simp only [List.length_append]
    rw [aznr001SwapLocRg_length, hreqlen, h2, h3, sortStrings_length, hcomplen, h5]
    omega
  have hlenlt : (getAZNR001ExpectedOrder fields).length < fields.length := by
    rw [hexplen]
    omega
  have hne : fields.length ≠ (getAZNR001ExpectedOrder fields).length :=
    (Nat.ne_of_lt hlenlt).symm
  unfold checkAZNR001OrderingIssues
  split_ifs
  · rfl
  · rfl
  · show validateAZNR001Order fields (getAZNR001ExpectedOrder fields) = ""
    unfold validateAZNR001Order
    rw [if_pos hne]

/-- Fields of the C2 witness: one unresolved field in a map whose resolved
fields are out of canonical order. -/
def c2AznrFields : List SchemaFieldInfo :=
  [⟨"attribute", none, 0⟩, ⟨"zone", some ⟨true, false, false⟩, 1⟩]

/-- Witness for `aznr001_unresolved_field_skips_finding`: a map with one
resolvable and one unresolvable field produces no finding. -/
theorem aznr001_unresolved_field_skips_finding_witness :
    (checkAZNR001OrderingIssues c2AznrFields).2 = "" :=
  aznr001_unresolved_field_skips_finding c2AznrFields (by decide)
